import Mathlib

/-!
Shallow embedding of the summarization-and-composition pipeline of
`src/summarize.rs` (struct `SummarizationClient`) and `src/prompt.rs`
(`format_prompt`).

External collaborators (the Tera template renderer, the LLM completion
client, and the diff-to-file-name extractor `util::get_file_name_from_diff`,
which lives outside the two source files) are modelled as oracle fields of
the client record: arbitrary functions the theorems quantify over.

Operations that may call the completion client return, besides their string
result, the list of prompts actually sent to the completion client, so that
"no completion call is issued" is expressible as that list being `[]`.

Concurrency (`tokio::spawn` fan-out and `try_join!`) is modelled
sequentially: the `JoinSet` join loop becomes a left fold over the input
diffs, and `try_join!` becomes a simultaneous match on the three
sub-results, which is all-or-nothing exactly like the source (if any
sub-operation fails the whole call fails). The `HashMap` is modelled as an
association list with insert-replaces-existing semantics; its iteration
order is unspecified in Rust, the model iterates in insertion order.
-/

/-- Errors of the pipeline: a template-rendering error or a completion
(client) error, mirroring the `anyhow::Error` causes in the source. -/
inductive Err where
  | template (msg : String)
  | completionFailed (msg : String)
deriving DecidableEq

/-- Embedding of the Rust `SummarizationClient` struct (src/summarize.rs,
lines 16-30), together with the two external capabilities it calls
(`LlmClient::completions` and Tera one-off rendering) and the external
helper `util::get_file_name_from_diff`, all as oracle functions. -/
structure SummarizationClient where
  /-- `self.client.completions(prompt)`: the external LLM completion call. -/
  complete : String → Except Err String
  /-- `Tera::one_off(template, context, false)` with a string-to-string
  variable context, as used by `format_prompt` (src/prompt.rs) and by the
  final prefix formatting. External engine, abstracted. -/
  renderTemplate : String → List (String × String) → Except Err String
  /-- `util::get_file_name_from_diff`: external to the two source files. -/
  getFileNameFromDiff : String → Option String
  fileIgnore : List String
  promptFileDiff : String
  promptConventionalCommitPrefix : String
  promptCommitSummary : String
  promptCommitTitle : String
  promptTranslation : String
  outputConventionalCommit : Bool
  outputConventionalCommitPrefixFormat : String
  outputShowPerFileSummary : Bool
  outputLangIsEn : Bool
  /-- `self.output_lang.to_string()`: the display name of the configured
  output language, only used when `outputLangIsEn` is false. -/
  outputLangName : String

/-- Rust `format_prompt(prompt, map)` (src/prompt.rs, lines 6-10):
serializes the variable map into a context and calls the one-off renderer. -/
def formatPrompt (c : SummarizationClient) (tmpl : String)
    (vars : List (String × String)) : Except Err String :=
  c.renderTemplate tmpl vars

/-- Prefix test on character lists (kernel-computable). -/
def isPrefixOfChars : List Char → List Char → Bool
  | [], _ => true
  | _ :: _, [] => false
  | a :: as, b :: bs => a == b && isPrefixOfChars as bs

/-- Substring containment on character lists: `pat` occurs in `s`. -/
def containsSubstrChars (pat : List Char) : List Char → Bool
  | [] => isPrefixOfChars pat []
  | a :: rest => isPrefixOfChars pat (a :: rest) || containsSubstrChars pat rest

/-- Rust `file_name.contains(ignore)`: substring containment test. -/
def containsSubstr (s pat : String) : Bool :=
  containsSubstrChars pat.data s.data

/-- Rust `char::to_ascii_lowercase`. -/
def asciiLowerChar (ch : Char) : Char :=
  if 'A' ≤ ch && ch ≤ 'Z' then Char.ofNat (ch.toNat + 32) else ch

/-- Rust `str::to_ascii_lowercase`: lower-case the ASCII letters only. -/
def asciiLowercase (s : String) : String :=
  ⟨s.data.map asciiLowerChar⟩

/-- Whitespace as trimmed by Rust `str::trim` (restricted to the ASCII
whitespace characters that can occur here). -/
def isWhitespaceChar (ch : Char) : Bool :=
  ch == ' ' || ch == '\t' || ch == '\n' || ch == '\r'

/-- Rust `str::trim`: strip leading and trailing whitespace. -/
def trimStr (s : String) : String :=
  ⟨((s.data.dropWhile isWhitespaceChar).reverse.dropWhile isWhitespaceChar).reverse⟩

/-- The ten recognized conventional-commit tokens of the `match` arms in
`conventional_commit_prefix` (src/summarize.rs, lines 180-184). -/
def conventionalCommitTokens : List String :=
  ["build", "chore", "ci", "docs", "feat", "fix", "perf", "refactor", "style", "test"]

/-- Rust `conventional_commit_prefix` (src/summarize.rs, lines 170-185).
If `output_conventional_commit` is off, short-circuits to `""` with no
completion call. Otherwise renders the classification template with
`summary_points`, completes it, and matches the ASCII-lowercased, trimmed
completion against the ten tokens; on a match it returns
`completion.to_string()` — the ORIGINAL completion — otherwise `""`.
The second component is the list of prompts sent to the completion client. -/
def conventionalCommitPrefix (c : SummarizationClient)
    (summaryPts : String) : Except Err (String × List String) :=
  if !c.outputConventionalCommit then .ok ("", [])
  else
    match formatPrompt c c.promptConventionalCommitPrefix
        [("summary_points", summaryPts)] with
    | .error e => .error e
    | .ok prompt =>
      match c.complete prompt with
      | .error e => .error e
      | .ok completion =>
        if conventionalCommitTokens.contains (trimStr (asciiLowercase completion)) then
          .ok (completion, [prompt])
        else
          .ok ("", [prompt])

/-- Rust `commit_summary` (src/summarize.rs, lines 187-197): render the
commit-summary template and complete it. -/
def commitSummary (c : SummarizationClient) (summaryPts commitMessage : String) :
    Except Err (String × List String) :=
  match formatPrompt c c.promptCommitSummary
      [("summary_points", summaryPts), ("commit_message", commitMessage)] with
  | .error e => .error e
  | .ok prompt =>
    match c.complete prompt with
    | .error e => .error e
    | .ok completion => .ok (completion, [prompt])

/-- Rust `commit_title` (src/summarize.rs, lines 199-209): render the
commit-title template and complete it. -/
def commitTitle (c : SummarizationClient) (summaryPts commitMessage : String) :
    Except Err (String × List String) :=
  match formatPrompt c c.promptCommitTitle
      [("summary_points", summaryPts), ("commit_message", commitMessage)] with
  | .error e => .error e
  | .ok prompt =>
    match c.complete prompt with
    | .error e => .error e
    | .ok completion => .ok (completion, [prompt])

/-- Rust `commit_translate` (src/summarize.rs, lines 211-223): the English
sentinel returns the message unchanged with no completion call; otherwise
render the translation template and return the completion verbatim. -/
def commitTranslate (c : SummarizationClient) (commitMessage : String) :
    Except Err (String × List String) :=
  if c.outputLangIsEn then .ok (commitMessage, [])
  else
    match formatPrompt c c.promptTranslation
        [("commit_message", commitMessage), ("output_language", c.outputLangName)] with
    | .error e => .error e
    | .ok prompt =>
      match c.complete prompt with
      | .error e => .error e
      | .ok completion => .ok (completion, [prompt])

/-- Rust `diff_summary` (src/summarize.rs, lines 155-167): render the
file-diff template with `{file_diff, commit_message}` and complete it. -/
def diffSummary (c : SummarizationClient)
    (fileDiff commitMessage : String) : Except Err String :=
  match formatPrompt c c.promptFileDiff
      [("file_diff", fileDiff), ("commit_message", commitMessage)] with
  | .error e => .error e
  | .ok prompt => c.complete prompt

/-- Rust `process_file_diff` (src/summarize.rs, lines 134-153): extract the
file name; `None` if no name is extractable; `None` (skip, log only) if the
name contains any ignore-list substring; otherwise summarize, degrading a
failed summary to `""` (`completion.unwrap_or_else(|_| "".to_string())`). -/
def processFileDiff (c : SummarizationClient)
    (fileDiff commitMessage : String) : Option (String × String) :=
  match c.getFileNameFromDiff fileDiff with
  | none => none
  | some fileName =>
    if c.fileIgnore.any fun ignore => containsSubstr fileName ignore then
      none
    else
      match diffSummary c fileDiff commitMessage with
      | .ok completion => some (fileName, completion)
      | .error _ => some (fileName, "")

/-- Keys of the association-list model of the Rust `HashMap`. -/
def hmKeys (m : List (String × String)) : List String := m.map Prod.fst

/-- `HashMap::insert`: replace the value of an existing key, else append. -/
def hmInsert (m : List (String × String)) (k v : String) :
    List (String × String) :=
  if k ∈ hmKeys m then
    m.map fun kv => if kv.1 = k then (k, v) else kv
  else m ++ [(k, v)]

/-- The fan-out/join of `get_commit_message` (src/summarize.rs, lines
69-83): one `process_file_diff` task per input diff, results inserted into
`summary_for_file`. Task completion order is unspecified in the source; the
model joins in input order. -/
def summaryForFile (c : SummarizationClient)
    (fileDiffs : List String) (commitMessage : String) :
    List (String × String) :=
  fileDiffs.foldl
    (fun m fileDiff =>
      match processFileDiff c fileDiff commitMessage with
      | some kv => hmInsert m kv.1 kv.2
      | none => m)
    []

/-- The aggregate block of `get_commit_message` (src/summarize.rs, lines
85-89): `[file_name]\n{completion}` blocks joined by `"\n"`. -/
def summaryPoints (m : List (String × String)) : String :=
  String.intercalate "\n" (m.map fun kv => "[" ++ kv.1 ++ "]\n" ++ kv.2)

/-- The message accumulated in `get_commit_message` before line
deduplication (src/summarize.rs, lines 99-107): `"{title}\n\n{body}\n\n"`,
then one `"[{file_name}]\n{summary}\n"` block per non-empty summary when
`show_per_file_summary` is set. -/
def assembledMessage (c : SummarizationClient) (title body : String)
    (m : List (String × String)) : String :=
  if c.outputShowPerFileSummary then
    title ++ "\n\n" ++ body ++ "\n\n" ++
      String.join ((m.filter fun kv => kv.2 != "").map
        fun kv => "[" ++ kv.1 ++ "]\n" ++ kv.2 ++ "\n")
  else
    title ++ "\n\n" ++ body ++ "\n\n"

/-- Split a character list at `'\n'` (the semantics of `splitOn "\n"`). -/
def splitNewline : List Char → List (List Char)
  | [] => [[]]
  | ch :: rest =>
    if ch = '\n' then [] :: splitNewline rest
    else
      match splitNewline rest with
      | [] => [[ch]]
      | l :: ls => (ch :: l) :: ls

/-- Strip one trailing `'\r'` (Rust `lines()` treats `"\r\n"` as one
line terminator). -/
def stripCR (l : List Char) : List Char :=
  match l.getLast? with
  | some '\r' => l.dropLast
  | _ => l

/-- Rust `str::lines()`: split at `"\n"`, drop the optional final line
terminator, and strip one trailing `'\r'` from each line. -/
def rustLines (s : String) : List String :=
  if s = "" then []
  else
    let parts := splitNewline s.data
    let parts := if parts.getLast? = some [] then parts.dropLast else parts
    parts.map fun l => ⟨stripCR l⟩

/-- Rust `Vec::dedup`: remove consecutive repeated elements. -/
def dedupConsecutive : List String → List String
  | [] => []
  | [a] => [a]
  | a :: b :: rest =>
    if a = b then dedupConsecutive (b :: rest)
    else a :: dedupConsecutive (b :: rest)

/-- Lines 109-112 of src/summarize.rs: split into lines, dedup consecutive
duplicates, rejoin with `"\n"`. -/
def dedupedMessage (s : String) : String :=
  String.intercalate "\n" (dedupConsecutive (rustLines s))

/-- Rust `get_commit_message` (src/summarize.rs, lines 68-124). The
three-way `try_join!` is the simultaneous match (all-or-nothing); then the
message is assembled, line-deduplicated, translated, and the formatted
classification token is prepended when non-empty. -/
def getCommitMessage (c : SummarizationClient)
    (fileDiffs : List String) (commitMessage : String) : Except Err String :=
  match commitTitle c (summaryPoints (summaryForFile c fileDiffs commitMessage)) commitMessage,
        commitSummary c (summaryPoints (summaryForFile c fileDiffs commitMessage)) commitMessage,
        conventionalCommitPrefix c (summaryPoints (summaryForFile c fileDiffs commitMessage)) with
  | .ok titleR, .ok bodyR, .ok pfxR =>
    match commitTranslate c
        (dedupedMessage (assembledMessage c titleR.1 bodyR.1
          (summaryForFile c fileDiffs commitMessage))) with
    | .ok translatedR =>
      if pfxR.1 ≠ "" then
        match c.renderTemplate c.outputConventionalCommitPrefixFormat
            [("prefix", pfxR.1)] with
        | .ok formattedPfx => .ok (formattedPfx ++ translatedR.1)
        | .error e => .error e
      else .ok translatedR.1
    | .error e => .error e
  | .error e, _, _ => .error e
  | _, .error e, _ => .error e
  | _, _, .error e => .error e

/-- Suffix test (used to state facts about trailing newlines). -/
def endsWithStr (s sfx : String) : Bool :=
  isPrefixOfChars sfx.data.reverse s.data.reverse

/-- A concrete client for witnesses: the renderer echoes its template, the
completion client echoes its prompt, nothing is ignored, English output. -/
def baseClient : SummarizationClient where
  complete := fun p => .ok p
  renderTemplate := fun tmpl _ => .ok tmpl
  getFileNameFromDiff := fun _ => none
  fileIgnore := []
  promptFileDiff := "FD"
  promptConventionalCommitPrefix := "P"
  promptCommitSummary := "S"
  promptCommitTitle := "T"
  promptTranslation := "TR"
  outputConventionalCommit := true
  outputConventionalCommitPrefixFormat := "CCFMT"
  outputShowPerFileSummary := false
  outputLangIsEn := true
  outputLangName := "en"

/-- A client whose classification completion is the mixed-case, trailing
space string `"Feat "`. -/
def rawTokenClient : SummarizationClient :=
  { baseClient with complete := fun _ => .ok "Feat " }

/-- A client whose commit-title template fails to render. -/
def badTitleClient : SummarizationClient :=
  { baseClient with
      renderTemplate := fun tmpl _ =>
        if tmpl = "T" then .error (.template "bad title template") else .ok tmpl }

/-- A client whose file-diff template fails to render (per-file summary
failure) while every fragment is named `lib.rs`. -/
def badFileDiffClient : SummarizationClient :=
  { baseClient with
      getFileNameFromDiff := fun _ => some "lib.rs"
      renderTemplate := fun tmpl _ =>
        if tmpl = "FD" then .error (.template "bad file-diff template") else .ok tmpl
      complete := fun p => .ok ("R:" ++ p) }

/-- A client producing title `"t"` and body `"b"`, with classification off. -/
def titleBodyClient : SummarizationClient :=
  { baseClient with
      complete := fun p => if p = "T" then .ok "t" else .ok "b"
      outputConventionalCommit := false }

/-- A client whose classification completion is `"chore"` and whose
renderer implements the classification format as `"[" ++ prefix ++ "] "`. -/
def choreClient : SummarizationClient :=
  { baseClient with
      complete := fun p => if p = "P" then .ok "chore" else .ok ("R:" ++ p)
      renderTemplate := fun tmpl vars =>
        if tmpl = "CCFMT" then .ok ("[" ++ ((vars.lookup "prefix").getD "") ++ "] ")
        else .ok tmpl }

/-- A client with the classification toggle off. -/
def noClassifyClient : SummarizationClient :=
  { baseClient with outputConventionalCommit := false }

theorem dedupConsecutive_head? (a : String) (l : List String) :
    (dedupConsecutive (a :: l)).head? = some a := by
  induction l generalizing a with
  | nil => rfl
  | cons b rest ih =>
    rw [dedupConsecutive]
    by_cases hab : a = b
    · rw [if_pos hab, hab]
      exact ih b
    · rw [if_neg hab]
      rfl

theorem dedupConsecutive_sublist : ∀ l : List String, List.Sublist (dedupConsecutive l) l
  | [] => by rw [dedupConsecutive]
  | [a] => by rw [dedupConsecutive]
  | a :: b :: rest => by
    rw [dedupConsecutive]
    by_cases hab : a = b
    · rw [if_pos hab]
      exact (dedupConsecutive_sublist (b :: rest)).cons a
    · rw [if_neg hab]
      exact (dedupConsecutive_sublist (b :: rest)).cons₂ a

theorem dedupConsecutive_chain' :
    ∀ l : List String, (dedupConsecutive l).Chain' (· ≠ ·)
  | [] => by rw [dedupConsecutive]; exact List.chain'_nil
  | [a] => by rw [dedupConsecutive]; exact List.chain'_singleton a
  | a :: b :: rest => by
    rw [dedupConsecutive]
    by_cases hab : a = b
    · rw [if_pos hab]
      exact dedupConsecutive_chain' (b :: rest)
    · rw [if_neg hab]
      refine List.chain'_cons'.mpr ⟨?_, dedupConsecutive_chain' (b :: rest)⟩
      intro y hy
      rw [dedupConsecutive_head? b rest] at hy
      cases hy
      exact hab

theorem dedupConsecutive_of_chain' :
    ∀ l : List String, l.Chain' (· ≠ ·) → dedupConsecutive l = l
  | [], _ => rfl
  | [_], _ => rfl
  | a :: b :: rest, h => by
    rw [dedupConsecutive]
    have h' := List.chain'_cons.mp h
    rw [if_neg h'.1, dedupConsecutive_of_chain' (b :: rest) h'.2]

/-- C6: the assembler's line deduplication removes a line if and only if it
is identical to the immediately preceding line: the result is a sublist of
the input with no two adjacent equal lines, an input with no two adjacent
equal lines is returned unchanged, and `"A\nA\nB\nA"` reduces to
`"A\nB\nA"` (the non-adjacent repeat of `A` survives). -/
theorem dedupRemovesOnlyConsecutiveDuplicates :
    (∀ l : List String,
        List.Sublist (dedupConsecutive l) l ∧
        (dedupConsecutive l).Chain' (· ≠ ·) ∧
        (l.Chain' (· ≠ ·) → dedupConsecutive l = l)) ∧
    dedupedMessage "A\nA\nB\nA" = "A\nB\nA" := by
  refine ⟨fun l => ⟨dedupConsecutive_sublist l, dedupConsecutive_chain' l,
    dedupConsecutive_of_chain' l⟩, by rfl⟩

theorem dedupRemovesOnlyConsecutiveDuplicates_witness :
    dedupConsecutive ["A", "B"] = ["A", "B"] :=
  (dedupRemovesOnlyConsecutiveDuplicates.1 ["A", "B"]).2.2
    (List.chain'_cons.mpr ⟨by decide, List.chain'_singleton "B"⟩)

theorem commitTranslate_en (c : SummarizationClient)
    (h : c.outputLangIsEn = true) (msg : String) :
    commitTranslate c msg = .ok (msg, []) := by
  unfold commitTranslate
  rw [h]
  rfl

/-- C9: when the configured output language is the English sentinel, the
translator returns its input unchanged and issues no completion call. -/
theorem translateEnglishIdentity (c : SummarizationClient)
    (h : c.outputLangIsEn = true) (msg : String) :
    commitTranslate c msg = .ok (msg, []) :=
  commitTranslate_en c h msg

theorem translateEnglishIdentity_witness :
    commitTranslate baseClient "hello" = .ok ("hello", []) :=
  translateEnglishIdentity baseClient rfl "hello"

/-- C1 (counterexample to the claim as stated): a classification completion
`"Feat "` is accepted, but the returned token is the ORIGINAL completion
`"Feat "`, not the normalized `"feat"` the claim promises. -/
theorem conventionalCommitPrefixNotNormalized_cex :
    conventionalCommitPrefix rawTokenClient "pts" = .ok ("Feat ", ["P"]) ∧
      ("Feat " : String) ≠ "feat" :=
  ⟨rfl, by decide⟩

/-- C1 (amended): when the ASCII-lowercased, trimmed completion exactly
matches one of the ten recognized tokens, `conventional_commit_prefix`
returns the original (un-normalized) completion string; otherwise `""`. -/
theorem conventionalCommitPrefixReturnsRawCompletion (c : SummarizationClient)
    (pts prompt completion : String)
    (hon : c.outputConventionalCommit = true)
    (hr : c.renderTemplate c.promptConventionalCommitPrefix
        [("summary_points", pts)] = .ok prompt)
    (hc : c.complete prompt = .ok completion) :
    conventionalCommitPrefix c pts =
      .ok ((if conventionalCommitTokens.contains (trimStr (asciiLowercase completion))
            then completion else ""), [prompt]) := by
  unfold conventionalCommitPrefix formatPrompt
  simp only [hon, hr, hc, Bool.not_true, Bool.false_eq_true, if_false]
  by_cases htok : conventionalCommitTokens.contains (trimStr (asciiLowercase completion)) = true
  · rw [if_pos htok, if_pos htok]
  · rw [if_neg htok, if_neg htok]

theorem conventionalCommitPrefixReturnsRawCompletion_witness :
    conventionalCommitPrefix rawTokenClient "pts" =
      .ok ((if conventionalCommitTokens.contains (trimStr (asciiLowercase "Feat "))
            then "Feat " else ""), ["P"]) :=
  conventionalCommitPrefixReturnsRawCompletion rawTokenClient "pts" "P" "Feat " rfl rfl rfl

theorem getCommitMessage_ok (c : SummarizationClient) (fds : List String)
    (cm t b pfx : String) (ct cs cp : List String)
    (ht : commitTitle c (summaryPoints (summaryForFile c fds cm)) cm = .ok (t, ct))
    (hs : commitSummary c (summaryPoints (summaryForFile c fds cm)) cm = .ok (b, cs))
    (hp : conventionalCommitPrefix c (summaryPoints (summaryForFile c fds cm)) = .ok (pfx, cp)) :
    getCommitMessage c fds cm =
      match commitTranslate c
          (dedupedMessage (assembledMessage c t b (summaryForFile c fds cm))) with
      | .ok translatedR =>
        if pfx ≠ "" then
          match c.renderTemplate c.outputConventionalCommitPrefixFormat
              [("prefix", pfx)] with
          | .ok formattedPfx => .ok (formattedPfx ++ translatedR.1)
          | .error e => .error e
        else .ok translatedR.1
      | .error e => .error e := by
  unfold getCommitMessage
  simp only [ht, hs, hp]

/-- C2: if any of the three joined Composer sub-operations fails, the whole
`get_commit_message` call returns an error and no message is produced. -/
theorem composerFailureAbortsPipeline (c : SummarizationClient)
    (fds : List String) (cm : String) (e : Err)
    (h : commitTitle c (summaryPoints (summaryForFile c fds cm)) cm = .error e ∨
         commitSummary c (summaryPoints (summaryForFile c fds cm)) cm = .error e ∨
         conventionalCommitPrefix c (summaryPoints (summaryForFile c fds cm)) = .error e) :
    ∃ eFinal, getCommitMessage c fds cm = .error eFinal := by
  unfold getCommitMessage
  cases ht : commitTitle c (summaryPoints (summaryForFile c fds cm)) cm with
  | error e1 =>
    cases hs2 : commitSummary c (summaryPoints (summaryForFile c fds cm)) cm with
    | error e2 =>
      cases hp2 : conventionalCommitPrefix c (summaryPoints (summaryForFile c fds cm)) with
      | error e3 => exact ⟨e1, rfl⟩
      | ok pp => exact ⟨e1, rfl⟩
    | ok bp =>
      cases hp2 : conventionalCommitPrefix c (summaryPoints (summaryForFile c fds cm)) with
      | error e3 => exact ⟨e1, rfl⟩
      | ok pp => exact ⟨e1, rfl⟩
  | ok tp =>
    cases hs2 : commitSummary c (summaryPoints (summaryForFile c fds cm)) cm with
    | error e2 =>
      cases hp2 : conventionalCommitPrefix c (summaryPoints (summaryForFile c fds cm)) with
      | error e3 => exact ⟨e2, rfl⟩
      | ok pp => exact ⟨e2, rfl⟩
    | ok bp =>
      cases hp2 : conventionalCommitPrefix c (summaryPoints (summaryForFile c fds cm)) with
      | error e3 => exact ⟨e3, rfl⟩
      | ok pp =>
        rcases h with h | h | h
        · rw [ht] at h; exact Except.noConfusion h
        · rw [hs2] at h; exact Except.noConfusion h
        · rw [hp2] at h; exact Except.noConfusion h

theorem composerFailureAbortsPipeline_witness :
    ∃ eFinal, getCommitMessage badTitleClient [] "" = .error eFinal :=
  composerFailureAbortsPipeline badTitleClient [] "" (.template "bad title template")
    (Or.inl rfl)

/-- C8: when the classification toggle is off, the classification
sub-operation returns `""` without issuing any completion call (empty call
trace), and the final message is exactly the translated assembled message,
with no prefix prepended. -/
theorem emitClassificationOffNoCallNoPrefix (c : SummarizationClient)
    (hoff : c.outputConventionalCommit = false) :
    (∀ pts, conventionalCommitPrefix c pts = .ok ("", [])) ∧
      ∀ fds cm t b tr, ∀ ct cs ctr : List String,
        commitTitle c (summaryPoints (summaryForFile c fds cm)) cm = .ok (t, ct) →
        commitSummary c (summaryPoints (summaryForFile c fds cm)) cm = .ok (b, cs) →
        commitTranslate c
            (dedupedMessage (assembledMessage c t b (summaryForFile c fds cm))) = .ok (tr, ctr) →
        getCommitMessage c fds cm = .ok tr := by
  have hpfx : ∀ pts, conventionalCommitPrefix c pts = .ok ("", []) := by
    intro pts
    unfold conventionalCommitPrefix
    rw [hoff]
    rfl
  refine ⟨hpfx, ?_⟩
  intro fds cm t b tr ct cs ctr ht hs htr
  rw [getCommitMessage_ok c fds cm t b "" ct cs [] ht hs (hpfx _), htr]
  rfl

theorem emitClassificationOffNoCallNoPrefix_witness :
    conventionalCommitPrefix noClassifyClient "pts" = .ok ("", []) ∧
      getCommitMessage noClassifyClient [] "" = .ok "T\n\nS\n" :=
  ⟨(emitClassificationOffNoCallNoPrefix noClassifyClient rfl).1 "pts",
    (emitClassificationOffNoCallNoPrefix noClassifyClient rfl).2 [] "" "T" "S" "T\n\nS\n"
      ["T"] ["S"] [] rfl rfl rfl⟩

/-- C7: translation runs on the unprefixed assembled message; when the
classification token is non-empty the classification format is rendered
with variable `prefix` and the result is prepended to the already-translated
message (the prefix itself is never translated); when the token is empty the
translated message is returned unprefixed. -/
theorem classificationPrefixPrependedAfterTranslation (c : SummarizationClient)
    (fds : List String) (cm t b pfx fp tr : String) (ct cs cp ctr : List String)
    (ht : commitTitle c (summaryPoints (summaryForFile c fds cm)) cm = .ok (t, ct))
    (hs : commitSummary c (summaryPoints (summaryForFile c fds cm)) cm = .ok (b, cs))
    (hp : conventionalCommitPrefix c (summaryPoints (summaryForFile c fds cm)) = .ok (pfx, cp))
    (htr : commitTranslate c
        (dedupedMessage (assembledMessage c t b (summaryForFile c fds cm))) = .ok (tr, ctr))
    (hf : c.renderTemplate c.outputConventionalCommitPrefixFormat
        [("prefix", pfx)] = .ok fp) :
    getCommitMessage c fds cm = if pfx = "" then .ok tr else .ok (fp ++ tr) := by
  rw [getCommitMessage_ok c fds cm t b pfx ct cs cp ht hs hp, htr]
  by_cases hpe : pfx = ""
  · rw [if_pos hpe]
    simp [hpe]
  · rw [if_neg hpe]
    simp only [ne_eq, hpe, not_false_eq_true, if_true, hf]

theorem classificationPrefixPrependedAfterTranslation_witness :
    getCommitMessage choreClient [] "" =
      if ("chore" : String) = "" then .ok "R:T\n\nR:S\n"
      else .ok ("[chore] " ++ "R:T\n\nR:S\n") :=
  classificationPrefixPrependedAfterTranslation choreClient [] "" "R:T" "R:S" "chore"
    "[chore] " "R:T\n\nR:S\n" ["T"] ["S"] ["P"] [] rfl rfl rfl rfl rfl

/-- C5 (counterexample to the claim as stated): the text accumulated before
deduplication ends with `"\n\n"`, but the returned string does not — the
split into lines drops the final line terminator, so the trailing `"\n\n"`
is NOT preserved through steps 3-4. -/
theorem assembledTrailingNewlinesNotPreserved_cex :
    getCommitMessage titleBodyClient [] "" = .ok "t\n\nb\n" ∧
      endsWithStr ("t" ++ "\n\n" ++ "b" ++ "\n\n") "\n\n" = true ∧
      endsWithStr "t\n\nb\n" "\n\n" = false :=
  ⟨rfl, by decide, by decide⟩

/-- C5 (amended): the text accumulated before deduplication is exactly
`"{title}\n\n{body}\n\n"` followed, when `show_per_file_summary` is set, by
one `"[{file_name}]\n{summary_text}\n"` block per FileSummary with
non-empty summary text (empty ones are omitted); the returned string is
this text split into lines, deduplicated, and rejoined with `"\n"` — which
drops the final line terminator, so the trailing `"\n\n"` is not preserved. -/
theorem assembledMessageShape (c : SummarizationClient)
    (fds : List String) (cm t b : String) (ct cs cp : List String)
    (ht : commitTitle c (summaryPoints (summaryForFile c fds cm)) cm = .ok (t, ct))
    (hs : commitSummary c (summaryPoints (summaryForFile c fds cm)) cm = .ok (b, cs))
    (hp : conventionalCommitPrefix c (summaryPoints (summaryForFile c fds cm)) = .ok ("", cp))
    (hen : c.outputLangIsEn = true) :
    getCommitMessage c fds cm =
      .ok (String.intercalate "\n" (dedupConsecutive (rustLines
        (if c.outputShowPerFileSummary then
          t ++ "\n\n" ++ b ++ "\n\n" ++
            String.join (((summaryForFile c fds cm).filter fun kv => kv.2 != "").map
              fun kv => "[" ++ kv.1 ++ "]\n" ++ kv.2 ++ "\n")
        else t ++ "\n\n" ++ b ++ "\n\n")))) := by
  rw [getCommitMessage_ok c fds cm t b "" ct cs cp ht hs hp,
    commitTranslate_en c hen]
  rfl

theorem assembledMessageShape_witness :
    getCommitMessage titleBodyClient [] "" =
      .ok (String.intercalate "\n" (dedupConsecutive (rustLines
        (if titleBodyClient.outputShowPerFileSummary then
          "t" ++ "\n\n" ++ "b" ++ "\n\n" ++
            String.join (((summaryForFile titleBodyClient [] "").filter
              fun kv => kv.2 != "").map
              fun kv => "[" ++ kv.1 ++ "]\n" ++ kv.2 ++ "\n")
        else "t" ++ "\n\n" ++ "b" ++ "\n\n")))) :=
  assembledMessageShape titleBodyClient [] "" "t" "b" ["T"] ["S"] [] rfl rfl rfl rfl

theorem hmKeys_insert_mem (m : List (String × String)) (k v : String)
    (hk : k ∈ hmKeys m) : hmKeys (hmInsert m k v) = hmKeys m := by
  unfold hmInsert
  rw [if_pos hk]
  unfold hmKeys
  rw [List.map_map]
  apply List.map_congr_left
  intro kv _
  by_cases h1 : kv.1 = k
  · simp [h1]
  · simp [h1]

theorem hmKeys_insert_not_mem (m : List (String × String)) (k v : String)
    (hk : k ∉ hmKeys m) : hmKeys (hmInsert m k v) = hmKeys m ++ [k] := by
  unfold hmInsert
  rw [if_neg hk]
  unfold hmKeys
  rw [List.map_append]
  rfl

theorem hmKeys_insert_iff (m : List (String × String)) (k v a : String) :
    a ∈ hmKeys (hmInsert m k v) ↔ a = k ∨ a ∈ hmKeys m := by
  by_cases hk : k ∈ hmKeys m
  · rw [hmKeys_insert_mem m k v hk]
    constructor
    · exact Or.inr
    · rintro (rfl | h)
      · exact hk
      · exact h
  · rw [hmKeys_insert_not_mem m k v hk, List.mem_append, List.mem_singleton, or_comm]

theorem hmKeys_insert_nodup (m : List (String × String)) (k v : String)
    (h : (hmKeys m).Nodup) : (hmKeys (hmInsert m k v)).Nodup := by
  by_cases hk : k ∈ hmKeys m
  · rw [hmKeys_insert_mem m k v hk]
    exact h
  · rw [hmKeys_insert_not_mem m k v hk]
    exact List.Nodup.append h (List.nodup_singleton k)
      (List.disjoint_singleton.mpr hk)

theorem processFileDiff_some_iff (c : SummarizationClient) (fd cm name : String) :
    (∃ v, processFileDiff c fd cm = some (name, v)) ↔
      (c.getFileNameFromDiff fd = some name ∧
        (c.fileIgnore.any fun ignore => containsSubstr name ignore) = false) := by
  unfold processFileDiff
  cases hx : c.getFileNameFromDiff fd with
  | none => simp
  | some fn =>
    dsimp only
    by_cases hig : (c.fileIgnore.any fun ignore => containsSubstr fn ignore) = true
    · rw [if_pos hig]
      simp only [Option.some.injEq]
      constructor
      · rintro ⟨v, hv⟩
        exact Option.noConfusion hv
      · rintro ⟨rfl, hig'⟩
        rw [hig] at hig'
        exact Bool.noConfusion hig'
    · rw [if_neg hig]
      rw [Bool.not_eq_true] at hig
      cases hds : diffSummary c fd cm with
      | ok completion =>
        constructor
        · rintro ⟨v, hv⟩
          rw [Option.some_inj, Prod.mk.injEq] at hv
          exact ⟨by rw [hv.1], by rw [← hv.1]; exact hig⟩
        · rintro ⟨hn, _⟩
          rw [Option.some_inj] at hn
          exact ⟨completion, by rw [hn]⟩
      | error e =>
        constructor
        · rintro ⟨v, hv⟩
          rw [Option.some_inj, Prod.mk.injEq] at hv
          exact ⟨by rw [hv.1], by rw [← hv.1]; exact hig⟩
        · rintro ⟨hn, _⟩
          rw [Option.some_inj] at hn
          exact ⟨"", by rw [hn]⟩

theorem summaryForFile_go_mem (c : SummarizationClient) (cm : String)
    (fds : List String) :
    ∀ (m : List (String × String)) (a : String),
      (a ∈ hmKeys (fds.foldl
        (fun m fileDiff =>
          match processFileDiff c fileDiff cm with
          | some kv => hmInsert m kv.1 kv.2
          | none => m) m) ↔
      a ∈ hmKeys m ∨ ∃ fd ∈ fds, ∃ v, processFileDiff c fd cm = some (a, v)) := by
  induction fds with
  | nil => intro m a; simp
  | cons fd fds ih =>
    intro m a
    rw [List.foldl_cons]
    cases hpd : processFileDiff c fd cm with
    | none =>
      rw [ih m a]
      constructor
      · rintro (h | ⟨fd', hmem, v, hv⟩)
        · exact Or.inl h
        · exact Or.inr ⟨fd', List.mem_cons_of_mem _ hmem, v, hv⟩
      · rintro (h | ⟨fd', hmem, v, hv⟩)
        · exact Or.inl h
        · rcases List.mem_cons.mp hmem with rfl | hmem'
          · rw [hpd] at hv
            exact Option.noConfusion hv
          · exact Or.inr ⟨fd', hmem', v, hv⟩
    | some kv =>
      rw [ih (hmInsert m kv.1 kv.2) a]
      rw [hmKeys_insert_iff m kv.1 kv.2 a]
      constructor
      · rintro ((rfl | h) | ⟨fd', hmem, v, hv⟩)
        · exact Or.inr ⟨fd, List.mem_cons_self fd fds, kv.2, hpd⟩
        · exact Or.inl h
        · exact Or.inr ⟨fd', List.mem_cons_of_mem _ hmem, v, hv⟩
      · rintro (h | ⟨fd', hmem, v, hv⟩)
        · exact Or.inl (Or.inr h)
        · rcases List.mem_cons.mp hmem with rfl | hmem'
          · rw [hpd, Option.some_inj] at hv
            exact Or.inl (Or.inl (by rw [hv]))
          · exact Or.inr ⟨fd', hmem', v, hv⟩

theorem summaryForFile_go_nodup (c : SummarizationClient) (cm : String)
    (fds : List String) :
    ∀ m : List (String × String), (hmKeys m).Nodup →
      (hmKeys (fds.foldl
        (fun m fileDiff =>
          match processFileDiff c fileDiff cm with
          | some kv => hmInsert m kv.1 kv.2
          | none => m) m)).Nodup := by
  induction fds with
  | nil => intro m hm; exact hm
  | cons fd fds ih =>
    intro m hm
    rw [List.foldl_cons]
    cases hpd : processFileDiff c fd cm with
    | none => exact ih m hm
    | some kv => exact ih (hmInsert m kv.1 kv.2) (hmKeys_insert_nodup m kv.1 kv.2 hm)

/-- C3: after the fan-out join, the key set of the FileSummary collection
is exactly the set of file names extractable from the input diffs minus
those containing any ignore-list substring, with no duplicate keys; an
ignored file contributes no entry at all. -/
theorem summaryKeysInvariant (c : SummarizationClient)
    (fds : List String) (cm : String) :
    (∀ name, name ∈ hmKeys (summaryForFile c fds cm) ↔
        ((∃ fd ∈ fds, c.getFileNameFromDiff fd = some name) ∧
          (c.fileIgnore.any fun ignore => containsSubstr name ignore) = false)) ∧
      (hmKeys (summaryForFile c fds cm)).Nodup := by
  constructor
  · intro name
    unfold summaryForFile
    rw [summaryForFile_go_mem c cm fds [] name]
    have hnil : name ∈ hmKeys ([] : List (String × String)) ↔ False := by
      simp [hmKeys]
    rw [hnil, false_or]
    constructor
    · rintro ⟨fd, hmem, v, hv⟩
      have h := (processFileDiff_some_iff c fd cm name).mp ⟨v, hv⟩
      exact ⟨⟨fd, hmem, h.1⟩, h.2⟩
    · rintro ⟨⟨fd, hmem, hx⟩, hig⟩
      obtain ⟨v, hv⟩ := (processFileDiff_some_iff c fd cm name).mpr ⟨hx, hig⟩
      exact ⟨fd, hmem, v, hv⟩
  · exact summaryForFile_go_nodup c cm fds [] (by simp [hmKeys])

/-- C4: a non-ignored file whose per-file summarization fails yields a
FileSummary entry with summary text exactly `""` (present, not absent); the
failure is not propagated and the surrounding `get_commit_message` call can
still succeed. -/
theorem failedSummaryDegradesToEmpty (c : SummarizationClient)
    (fd cm name : String) (e : Err)
    (hx : c.getFileNameFromDiff fd = some name)
    (hig : (c.fileIgnore.any fun ignore => containsSubstr name ignore) = false)
    (hfail : diffSummary c fd cm = .error e) :
    processFileDiff c fd cm = some (name, "") ∧
      summaryForFile c [fd] cm = [(name, "")] ∧
      ∀ t b tr, ∀ ct cs cp ctr : List String,
        commitTitle c (summaryPoints [(name, "")]) cm = .ok (t, ct) →
        commitSummary c (summaryPoints [(name, "")]) cm = .ok (b, cs) →
        conventionalCommitPrefix c (summaryPoints [(name, "")]) = .ok ("", cp) →
        commitTranslate c (dedupedMessage (assembledMessage c t b [(name, "")])) =
          .ok (tr, ctr) →
        getCommitMessage c [fd] cm = .ok tr := by
  have h1 : processFileDiff c fd cm = some (name, "") := by
    unfold processFileDiff
    rw [hx]
    dsimp only
    rw [if_neg (by rw [hig]; exact Bool.false_ne_true), hfail]
  have h2 : summaryForFile c [fd] cm = [(name, "")] := by
    unfold summaryForFile
    rw [List.foldl_cons, h1]
    rfl
  refine ⟨h1, h2, ?_⟩
  intro t b tr ct cs cp ctr ht hs hp htr
  rw [← h2] at ht hs hp htr
  rw [getCommitMessage_ok c [fd] cm t b "" ct cs cp ht hs hp, htr]
  rfl

theorem failedSummaryDegradesToEmpty_witness :
    processFileDiff badFileDiffClient "diff" "" = some ("lib.rs", "") ∧
      summaryForFile badFileDiffClient ["diff"] "" = [("lib.rs", "")] ∧
      getCommitMessage badFileDiffClient ["diff"] "" =
        .ok "R:T\n\nR:S\n" := by
  have h := failedSummaryDegradesToEmpty badFileDiffClient "diff" "" "lib.rs"
    (.template "bad file-diff template") rfl (by decide) rfl
  refine ⟨h.1, h.2.1, ?_⟩
  exact h.2.2 "R:T" "R:S" "R:T\n\nR:S\n" ["T"] ["S"] ["P"] [] rfl rfl rfl rfl

/-- C10: a fragment from which no file name can be extracted contributes no
FileSummary entry and raises no error: its per-file task returns nothing
and the join over the remaining fragments is unchanged. -/
theorem unnamedFragmentContributesNothing (c : SummarizationClient)
    (fd cm : String) (fdsBefore fdsAfter : List String)
    (h : c.getFileNameFromDiff fd = none) :
    processFileDiff c fd cm = none ∧
      summaryForFile c (fdsBefore ++ fd :: fdsAfter) cm =
        summaryForFile c (fdsBefore ++ fdsAfter) cm := by
  have h1 : processFileDiff c fd cm = none := by
    unfold processFileDiff
    rw [h]
  refine ⟨h1, ?_⟩
  unfold summaryForFile
  rw [List.foldl_append, List.foldl_append, List.foldl_cons, h1]

theorem unnamedFragmentContributesNothing_witness :
    processFileDiff baseClient "junk" "" = none ∧
      summaryForFile baseClient (["a"] ++ "junk" :: ["b"]) "" =
        summaryForFile baseClient (["a"] ++ ["b"]) "" :=
  unnamedFragmentContributesNothing baseClient "junk" "" ["a"] ["b"] rfl
